import Mathlib

/-!
# Verification of the point-set-client networking core

A shallow embedding of the client-side lockstep networking core
(`src/base.rs`, `src/codec.rs`, `src/chan.rs`, `src/worker.rs`) together
with proofs of its specified properties.

Modelling conventions:
* Bytes are `Fin 256`; 32-bit machine integers are carried as their bit
  patterns in `Fin (2^32)` (`i32` and `f32` fields of `Command` are moved
  by the codec bit-exactly, so only their 32-bit patterns matter).
* Buffers (`Vec<u8>`, slices) are `List Byte`.
* Fallible Rust functions returning `Result` become `Except KCPError`.
* The protobuf-generated message module (`message.rs`) is not part of the
  given sources; its payload serialization is modelled from the spec
  (see the `Modelled from the spec:` doc comments below): each message
  class is an opaque record whose payload codec is injective and
  round-trips, which is exactly the contract the core relies on.
-/

deriving instance DecidableEq for Except

namespace PointSet

abbrev Byte := Fin 256

abbrev U32 := Fin 4294967296

def mkByte (n : Nat) : Byte := ⟨n % 256, by omega⟩

def toU32 (n : Nat) : U32 := ⟨n % 4294967296, by omega⟩

/-- `base.rs`: `KCP_MIN_PACKET = 1 + 2`. -/
def KCP_MIN_PACKET : Nat := 1 + 2

/-- `base.rs`: `KCP_MAX_PACKET = 470 * 4`. -/
def KCP_MAX_PACKET : Nat := 470 * 4

/-- Modelled from the spec: player lifecycle states (`message.rs` is generated
and absent from the sources; the spec lists `{Initing, Waiting, Running, Stopped}`). -/
inductive NetPlayerState where
  | Initing
  | Waiting
  | Running
  | Stopped
deriving DecidableEq, Repr

/-- Modelled from the spec: finish causes
`{NetworkBroken, InvalidPacket, GameOver, ClientError}`. -/
inductive NetFinishCause where
  | NetworkBroken
  | InvalidPacket
  | GameOver
  | ClientError
deriving DecidableEq, Repr

/-- `base.rs`: the `KCPError` enum. Payloads of the `IO`, `Protobuf`,
`Bincode` variants are dropped (they carry foreign error values). -/
inductive KCPError where
  | IOErr
  | Timeout
  | WindowExhausted
  | PacketBroken
  | PacketTooShort
  | PacketTooLong
  | UnexpectedPacket
  | GameOver
  | RemoteFinished (cause : NetFinishCause)
  | Protobuf
  | Bincode
  | KCP (code : Int)
  | Unexpected
  | InvalidFrame
  | MessageTooLong
deriving DecidableEq, Repr

/-- `base.rs`: `KCPError::cause`. -/
def KCPError.cause : KCPError → NetFinishCause
  | .IOErr => .NetworkBroken
  | .Timeout => .NetworkBroken
  | .WindowExhausted => .NetworkBroken
  | .PacketBroken => .InvalidPacket
  | .PacketTooShort => .InvalidPacket
  | .PacketTooLong => .InvalidPacket
  | .UnexpectedPacket => .InvalidPacket
  | .GameOver => .GameOver
  | .RemoteFinished c => c
  | .Protobuf => .ClientError
  | .Bincode => .ClientError
  | .KCP _ => .ClientError
  | .Unexpected => .ClientError
  | .InvalidFrame => .ClientError
  | .MessageTooLong => .ClientError

/-- Modelled from the spec: `Connect{room_id, player_id, password}`
(strings carried as their UTF-8 bytes). -/
structure NetConnect where
  room_id : List Byte
  player_id : List Byte
  password : List Byte
deriving DecidableEq, Repr

/-- Modelled from the spec: `State{conv, state}`. -/
structure NetState where
  conv : U32
  state : NetPlayerState
deriving DecidableEq, Repr

/-- Modelled from the spec: `Finish{cause}`. -/
structure NetFinish where
  cause : NetFinishCause
deriving DecidableEq, Repr

/-- Modelled from the spec: `Command{conv, frame}`. -/
structure NetCommand where
  conv : U32
  frame : U32
deriving DecidableEq, Repr

/-- Modelled from the spec: `Hash{frame, hash}`. -/
structure NetHash where
  frame : U32
  hash : List Byte
deriving DecidableEq, Repr

/-- `codec.rs`: the `NetMessage` enum. `Accept{}` and `Start{}` carry no
fields per the spec, so they are fieldless constructors here. -/
inductive NetMessage where
  | Connect (msg : NetConnect)
  | Accept
  | State (msg : NetState)
  | Start
  | Finish (msg : NetFinish)
  | Command (msg : NetCommand)
  | Hash (msg : NetHash)
deriving DecidableEq, Repr

/-- Wire type tag of each message class (spec §6.1: tags 1..7). -/
def NetMessage.tag : NetMessage → Nat
  | .Connect _ => 1
  | .Accept => 2
  | .State _ => 3
  | .Start => 4
  | .Finish _ => 5
  | .Command _ => 6
  | .Hash _ => 7

/-- Little-endian 4-byte encoding of (the low 32 bits of) a natural. -/
def u32LE (n : Nat) : List Byte :=
  [mkByte n, mkByte (n / 256), mkByte (n / 65536), mkByte (n / 16777216)]

/-- Read 4 little-endian bytes as a natural, returning the remainder. -/
def parseU32 : List Byte → Option (Nat × List Byte)
  | b0 :: b1 :: b2 :: b3 :: rest =>
    some (b0.val + 256 * b1.val + 65536 * b2.val + 16777216 * b3.val, rest)
  | _ => none

/-- Take exactly `n` bytes, returning them and the remainder. -/
def takeB (n : Nat) (bs : List Byte) : Option (List Byte × List Byte) :=
  if n ≤ bs.length then some (bs.take n, bs.drop n) else none

def stateByte : NetPlayerState → Byte
  | .Initing => 0
  | .Waiting => 1
  | .Running => 2
  | .Stopped => 3

def byteToState (b : Byte) : Option NetPlayerState :=
  match b.val with
  | 0 => some .Initing
  | 1 => some .Waiting
  | 2 => some .Running
  | 3 => some .Stopped
  | _ => none

def causeByte : NetFinishCause → Byte
  | .NetworkBroken => 0
  | .InvalidPacket => 1
  | .GameOver => 2
  | .ClientError => 3

def byteToCause (b : Byte) : Option NetFinishCause :=
  match b.val with
  | 0 => some .NetworkBroken
  | 1 => some .InvalidPacket
  | 2 => some .GameOver
  | 3 => some .ClientError
  | _ => none

/-- Length-prefixed byte string (u32 length, then the bytes). -/
def lenPrefixed (bs : List Byte) : List Byte := u32LE bs.length ++ bs

/-- Modelled from the spec: the structured (protobuf) payload encoding of
each message class. The core treats payloads as opaque blobs produced by
`write_to_vec`; only injectivity / round-tripping is relied upon. -/
def encodePayload : NetMessage → List Byte
  | .Connect c => lenPrefixed c.room_id ++ lenPrefixed c.player_id ++ lenPrefixed c.password
  | .Accept => []
  | .State s => u32LE s.conv.val ++ [stateByte s.state]
  | .Start => []
  | .Finish f => [causeByte f.cause]
  | .Command c => u32LE c.conv.val ++ u32LE c.frame.val
  | .Hash h => u32LE h.frame.val ++ h.hash

/-- Modelled from the spec: `NetConnect::parse_from_bytes`. -/
def parseConnect (bs : List Byte) : Option NetMessage := do
  let (n1, r1) ← parseU32 bs
  let (s1, r2) ← takeB n1 r1
  let (n2, r3) ← parseU32 r2
  let (s2, r4) ← takeB n2 r3
  let (n3, r5) ← parseU32 r4
  let (s3, r6) ← takeB n3 r5
  if r6 = [] then some (.Connect ⟨s1, s2, s3⟩) else none

/-- Modelled from the spec: `NetAccept::parse_from_bytes`. -/
def parseAccept (bs : List Byte) : Option NetMessage :=
  if bs = [] then some .Accept else none

/-- Modelled from the spec: `NetState::parse_from_bytes`. -/
def parseState (bs : List Byte) : Option NetMessage := do
  let (n, r) ← parseU32 bs
  match r with
  | [b] => do
    let st ← byteToState b
    some (.State ⟨toU32 n, st⟩)
  | _ => none

/-- Modelled from the spec: `NetStart::parse_from_bytes`. -/
def parseStart (bs : List Byte) : Option NetMessage :=
  if bs = [] then some .Start else none

/-- Modelled from the spec: `NetFinish::parse_from_bytes`. -/
def parseFinish (bs : List Byte) : Option NetMessage :=
  match bs with
  | [b] => do
    let c ← byteToCause b
    some (.Finish ⟨c⟩)
  | _ => none

/-- Modelled from the spec: `NetCommand::parse_from_bytes`. -/
def parseCommandMsg (bs : List Byte) : Option NetMessage := do
  let (n1, r1) ← parseU32 bs
  let (n2, r2) ← parseU32 r1
  if r2 = [] then some (.Command ⟨toU32 n1, toU32 n2⟩) else none

/-- Modelled from the spec: `NetHash::parse_from_bytes`. -/
def parseHash (bs : List Byte) : Option NetMessage := do
  let (n, r) ← parseU32 bs
  some (.Hash ⟨toU32 n, r⟩)

/-- The type tag byte `bytes[0]`. -/
def frameTag (bytes : List Byte) : Nat := (bytes.getD 0 0).val

/-- The big-endian u16 payload length `BigEndian::read_u16(&bytes[1..])`. -/
def frameInnerLen (bytes : List Byte) : Nat :=
  (bytes.getD 1 0).val * 256 + (bytes.getD 2 0).val

/-- Dispatch of the payload slice to the structured decoder for a known
type tag (`codec.rs` lines 43-71; the `NetType` match). -/
def parsePayload (typ : Nat) (pb_bytes : List Byte) : Option NetMessage :=
  match typ with
  | 1 => parseConnect pb_bytes
  | 2 => parseAccept pb_bytes
  | 3 => parseState pb_bytes
  | 4 => parseStart pb_bytes
  | 5 => parseFinish pb_bytes
  | 6 => parseCommandMsg pb_bytes
  | _ => parseHash pb_bytes

/-- `codec.rs` lines 27-76: `NetMessage::decode`. The payload slice is
`bytes[KCP_MIN_PACKET..offset]`. An unknown type tag (not 1..7) is
`KCPError::PacketBroken`; payload parse failure is the propagated
`KCPError::Protobuf` error. -/
def NetMessage.decode (bytes : List Byte) : Except KCPError (NetMessage × Nat) :=
  if bytes.length < KCP_MIN_PACKET then .error .PacketTooShort
  else if bytes.length > KCP_MAX_PACKET then .error .PacketTooLong
  else
    let offset := KCP_MIN_PACKET + frameInnerLen bytes
    if offset > bytes.length then .error .PacketBroken
    else
      let pb_bytes := (bytes.drop KCP_MIN_PACKET).take (frameInnerLen bytes)
      if 1 ≤ frameTag bytes ∧ frameTag bytes ≤ 7 then
        match parsePayload (frameTag bytes) pb_bytes with
        | some msg => .ok (msg, offset)
        | none => .error .Protobuf
      else .error .PacketBroken

/-- `codec.rs` lines 79-122: `NetMessage::encode`. Appends the 3-byte
header and the structured payload to `bytes`, backfills the big-endian
u16 payload size, and returns the number of bytes this frame occupies.
On `MessageTooLong` the Rust code leaves the buffer dirty but the caller
never reuses it; the dirty buffer is not modelled. -/
def NetMessage.encode (msg : NetMessage) (bytes : List Byte) :
    Except KCPError (List Byte × Nat) :=
  let payload := encodePayload msg
  let offset := KCP_MIN_PACKET + payload.length
  if offset > KCP_MAX_PACKET then .error .MessageTooLong
  else
    let msg_size := payload.length
    .ok (bytes ++ mkByte msg.tag :: mkByte (msg_size / 256) :: mkByte (msg_size % 256) :: payload,
         offset)

/-- `codec.rs` lines 125-129: the `Command` enum. The `i32` and `f32`
fields are carried as their 32-bit patterns (the codec only moves the
bits; bincode fixint encoding writes them as 4 little-endian bytes). -/
inductive Command where
  | Aaa (a b : U32)
  | Bbb (x y z : U32)
deriving DecidableEq, Repr

/-- `codec.rs` lines 131-136: the `CommandEx` record. -/
structure CommandEx where
  conv : U32
  frame : U32
  command : Command
deriving DecidableEq, Repr

/-- Little-endian 8-byte encoding of (the low 64 bits of) a natural,
written as its two little-endian 32-bit halves. -/
def u64LE (n : Nat) : List Byte := u32LE n ++ u32LE (n / 4294967296)

/-- Read 8 little-endian bytes as a natural, returning the remainder. -/
def parseU64 (bs : List Byte) : Option (Nat × List Byte) := do
  let (lo, r1) ← parseU32 bs
  let (hi, r2) ← parseU32 r1
  some (lo + 4294967296 * hi, r2)

/-- Bincode fixint encoding of one `Command`: u32 variant index, then the
fields as 4-byte little-endian values. -/
def serCommand : Command → List Byte
  | .Aaa a b => u32LE 0 ++ u32LE a.val ++ u32LE b.val
  | .Bbb x y z => u32LE 1 ++ u32LE x.val ++ u32LE y.val ++ u32LE z.val

/-- Bincode fixint encoding of `Vec<Command>`: u64 length prefix, then the
elements in order. -/
def serializeCommands (cmds : List Command) : List Byte :=
  u64LE cmds.length ++ (cmds.map serCommand).flatten

/-- Bincode fixint decoding of one `Command`. -/
def parseCommand (bs : List Byte) : Option (Command × List Byte) := do
  let (v, r) ← parseU32 bs
  match v with
  | 0 => do
    let (a, r1) ← parseU32 r
    let (b, r2) ← parseU32 r1
    some (.Aaa (toU32 a) (toU32 b), r2)
  | 1 => do
    let (x, r1) ← parseU32 r
    let (y, r2) ← parseU32 r1
    let (z, r3) ← parseU32 r2
    some (.Bbb (toU32 x) (toU32 y) (toU32 z), r3)
  | _ => none

/-- Read exactly `n` `Command`s. -/
def parseNCommands : Nat → List Byte → Option (List Command × List Byte)
  | 0, bs => some ([], bs)
  | n + 1, bs => do
    let (c, r) ← parseCommand bs
    let (cs, r') ← parseNCommands n r
    some (c :: cs, r')

/-- Bincode fixint decoding of a sequence of `Command` (as performed by
`deserialize_seed` with `CommandsVisitor`): u64 length, then that many
elements; trailing bytes are ignored. -/
def deserializeCommands (bs : List Byte) : Option (List Command) := do
  let (n, r) ← parseU64 bs
  let (cs, _) ← parseNCommands n r
  some cs

/-- `codec.rs` lines 176-202: `CommandEncoder::encode`. The encoder's
`net_command` keeps the default `conv = 0` (the worker never sets it);
its `frame` is set to the given frame. Returns the produced
`(hash_bytes, command_bytes)`; the Rust method also clears the staging
`commands` and `hash` buffers, which the caller (`NetWorker`) models. -/
def CommandEncoder.encode (frame : U32) (commands : List Command) (hash : List Byte) :
    Except KCPError (List Byte × List Byte) := do
  let (hash_bytes, _) ← NetMessage.encode (.Hash ⟨frame, hash⟩) []
  let (command_frame, _) ← NetMessage.encode (.Command ⟨0, frame⟩) []
  pure (hash_bytes, command_frame ++ serializeCommands commands)

/-- `codec.rs` lines 224-246: `CommandDecoder::decode`. Decodes the outer
frame, requires it to be a `Command`, then deserializes the trailing
bytes as a `Command` sequence, wrapping each element with the outer
frame's `conv` and `frame`. -/
def CommandDecoder.decode (bytes : List Byte) : Except KCPError (List CommandEx) :=
  match NetMessage.decode bytes with
  | .error e => .error e
  | .ok (.Command cmd, offset) =>
    match deserializeCommands (bytes.drop offset) with
    | some cmds => .ok (cmds.map fun c => ⟨cmd.conv, cmd.frame, c⟩)
    | none => .error .Bincode
  | .ok _ => .error .PacketBroken

/-- `chan.rs` lines 10-15: `NetInput`. -/
structure NetInput where
  frame : U32
  commands : List Command
  hash : List Byte
deriving DecidableEq, Repr

/-- `chan.rs` lines 17-24: `NetInput::new` (fresh, empty buffers). -/
def NetInput.new : NetInput := ⟨0, [], []⟩

/-- `chan.rs` lines 33-37: `NetInputWrap`. -/
inductive NetInputWrap where
  | input (i : NetInput)
  | finish
deriving DecidableEq, Repr

/-- `chan.rs` lines 39-44: `NetInputState`. -/
inductive NetInputState where
  | Empty
  | NonEmpty
  | Finish
deriving DecidableEq, Repr

/-- `chan.rs` lines 46-50: `NetOutput`. The `HashMap<u32, NetPlayerState>`
is modelled as an association list updated last-write-wins. -/
structure NetOutput where
  commands : List CommandEx
  states : List (U32 × NetPlayerState)
deriving DecidableEq, Repr

/-- `HashMap::insert`: replace the binding for `conv` or add it. -/
def upsertState (states : List (U32 × NetPlayerState)) (conv : U32)
    (st : NetPlayerState) : List (U32 × NetPlayerState) :=
  match states with
  | [] => [(conv, st)]
  | (c, s) :: rest =>
    if c = conv then (conv, st) :: rest else (c, s) :: upsertState rest conv st

/-- `chan.rs` lines 66-72: the mutex-guarded interior of `NetChan`. The
`cache_stack` is a `Vec` used as a stack via `push`/`pop`; it is modelled
with the head of the list as the stack top. Its capacity is fixed at 3
(`Vec::with_capacity(3)` and pushes are guarded by `capacity() > len()`,
so the capacity never grows). -/
structure NetChanImpl where
  cache_stack : List NetInput
  input_queue : List NetInputWrap
  output : NetOutput
  finish_cause : Option NetFinishCause
deriving DecidableEq, Repr

/-- `chan.rs` lines 78-85: `NetChan::new`. -/
def NetChan.new : NetChanImpl := ⟨[], [], ⟨[], []⟩, none⟩

/-- `chan.rs` lines 87-104: `NetChan::send_input`. Returns the result and
the updated channel. The popped cache buffer's `frame` is overwritten but
its `commands`/`hash` are extended (`extend_from_slice`), so stale bytes
would survive in an uncleared buffer. -/
def NetChan.send_input (c : NetChanImpl) (frame : U32) (commands : List Command)
    (hash : List Byte) : Except NetFinishCause Unit × NetChanImpl :=
  match c.finish_cause with
  | some cause => (.error cause, c)
  | none =>
    let (buf, rest) :=
      match c.cache_stack with
      | i :: rest => (i, rest)
      | [] => (NetInput.new, [])
    let inp : NetInput :=
      { frame := frame
        commands := buf.commands ++ commands
        hash := buf.hash ++ hash }
    (.ok (), { c with cache_stack := rest
                      input_queue := c.input_queue ++ [.input inp] })

/-- `chan.rs` lines 106-127: `NetChan::recv_input`. Returns the state, the
popped input (its fields are copied into the caller's buffers), and the
updated channel: the popped buffer is cleared and returned to the cache
when the cache is below its capacity of 3, else dropped. -/
def NetChan.recv_input (c : NetChanImpl) :
    NetInputState × Option NetInput × NetChanImpl :=
  match c.input_queue with
  | [] => (.Empty, none, c)
  | .finish :: rest => (.Finish, none, { c with input_queue := rest })
  | .input i :: rest =>
    let cache' :=
      if c.cache_stack.length < 3 then NetInput.new :: c.cache_stack
      else c.cache_stack
    (.NonEmpty, some i, { c with input_queue := rest, cache_stack := cache' })

/-- `chan.rs` lines 129-132: `NetChan::send_output_commands` (no
finish-cause check). -/
def NetChan.send_output_commands (c : NetChanImpl) (cmds : List CommandEx) :
    NetChanImpl :=
  { c with output := { c.output with commands := c.output.commands ++ cmds } }

/-- `chan.rs` lines 134-137: `NetChan::send_output_states` (no
finish-cause check). -/
def NetChan.send_output_states (c : NetChanImpl) (conv : U32)
    (state : NetPlayerState) : NetChanImpl :=
  { c with output := { c.output with states := upsertState c.output.states conv state } }

/-- `chan.rs` lines 139-153: `NetChan::recv_output`. Returns the drained
`(commands, states)` and the updated channel. -/
def NetChan.recv_output (c : NetChanImpl) :
    Except NetFinishCause (List CommandEx × List (U32 × NetPlayerState)) × NetChanImpl :=
  match c.finish_cause with
  | some cause => (.error cause, c)
  | none => (.ok (c.output.commands, c.output.states), { c with output := ⟨[], []⟩ })

/-- `chan.rs` lines 155-163: `NetChan::game_over`. -/
def NetChan.game_over (c : NetChanImpl) : Except NetFinishCause Unit × NetChanImpl :=
  match c.finish_cause with
  | some cause => (.error cause, c)
  | none => (.ok (), { c with input_queue := c.input_queue ++ [.finish] })

/-- `chan.rs` lines 165-168: `NetChan::finish`. -/
def NetChan.finish (c : NetChanImpl) (cause : NetFinishCause) : NetChanImpl :=
  { c with finish_cause := some cause }

/-- One call into the `NetChan` public surface, for quantifying over
arbitrary operation sequences. -/
inductive ChanOp where
  | sendInput (frame : U32) (commands : List Command) (hash : List Byte)
  | recvInput
  | sendOutputCommands (cmds : List CommandEx)
  | sendOutputStates (conv : U32) (st : NetPlayerState)
  | recvOutput
  | gameOver
  | finishOp (cause : NetFinishCause)
deriving DecidableEq, Repr

/-- Apply one operation to the channel state (results are discarded). -/
def applyChanOp (c : NetChanImpl) : ChanOp → NetChanImpl
  | .sendInput f cm h => (NetChan.send_input c f cm h).2
  | .recvInput => (NetChan.recv_input c).2.2
  | .sendOutputCommands cmds => NetChan.send_output_commands c cmds
  | .sendOutputStates conv st => NetChan.send_output_states c conv st
  | .recvOutput => (NetChan.recv_output c).2
  | .gameOver => (NetChan.game_over c).2
  | .finishOp cause => NetChan.finish c cause

/-- Run a sequence of channel operations. -/
def runChanOps (c : NetChanImpl) (ops : List ChanOp) : NetChanImpl :=
  ops.foldl applyChanOp c

/-- `worker.rs` lines 15-32: the fields of `NetWorker` relevant to the
session state machine. `encCommands`/`encHash` are the `CommandEncoder`'s
staging `commands` and hash buffers, which `NetChan::recv_input` extends
with the dequeued input's contents. Transport, timestamps and the
connect credentials are external collaborators and are not modelled. -/
structure NetWorker where
  conv : U32
  state : NetPlayerState
  frame : U32
  encCommands : List Command
  encHash : List Byte
deriving DecidableEq, Repr

/-- The observable effects of one worker step: the updated worker, the
propagated error if any, the `send_output_states` calls in order, the
`send_output_commands` payloads, and the `kcp.send_kcp` payloads in
order. -/
structure StepResult where
  worker : NetWorker
  err : Option KCPError
  stateOut : List (U32 × NetPlayerState)
  cmdOut : List CommandEx
  sends : List (List Byte)
deriving DecidableEq, Repr

/-- `worker.rs` lines 275-278: `NetWorker::set_self_state` (updates the
local state and emits one `send_output_states(self.conv, state)`). -/
def NetWorker.set_self_state (w : NetWorker) (state : NetPlayerState) :
    NetWorker × List (U32 × NetPlayerState) :=
  ({ w with state := state }, [(w.conv, state)])

/-- `worker.rs` lines 269-273: `NetWorker::set_state` (forwards a peer
state update unless it carries the worker's own `conv`). -/
def NetWorker.set_state (w : NetWorker) (conv : U32) (state : NetPlayerState) :
    List (U32 × NetPlayerState) :=
  if conv ≠ w.conv then [(conv, state)] else []

/-- `worker.rs` lines 280-285: `NetWorker::is_message_command`. -/
def NetWorker.is_message_command (bytes : List Byte) : Bool :=
  if bytes.length < KCP_MIN_PACKET then false
  else (bytes.getD 0 0).val = 6

/-- `worker.rs` lines 154-175: `NetWorker::handle_input_impl`, called with
the dequeued frame after `recv_input` extended the encoder buffers.
Returns the worker (with any mutations made before an error), the error,
and the transport sends. On the `Running` success path the encoder's
staging buffers are cleared by `CommandEncoder::encode`. -/
def NetWorker.handle_input_impl (w : NetWorker) (frame : U32) :
    NetWorker × Option KCPError × List (List Byte) :=
  match w.state with
  | .Initing | .Waiting =>
    if ¬w.encCommands.isEmpty ∨ ¬w.encHash.isEmpty then (w, some .Unexpected, [])
    else (w, none, [])
  | .Running =>
    if frame ≤ w.frame then (w, some .InvalidFrame, [])
    else
      let w1 := { w with frame := frame }
      match CommandEncoder.encode frame w1.encCommands w1.encHash with
      | .error e => (w1, some e, [])
      | .ok (hash_bytes, command_bytes) =>
        ({ w1 with encCommands := [], encHash := [] }, none, [hash_bytes, command_bytes])
  | .Stopped => (w, none, [])

/-- `worker.rs` lines 189-241: `NetWorker::handle_output_impl`, applied to
one received transport payload (`kcp_buffer`). -/
def NetWorker.handle_output_impl (w : NetWorker) (bytes : List Byte) : StepResult :=
  match w.state with
  | .Initing =>
    match NetMessage.decode bytes with
    | .error e => ⟨w, some e, [], [], []⟩
    | .ok (.Accept, _) =>
      let (w', out) := w.set_self_state .Waiting
      ⟨w', none, out, [], []⟩
    | .ok (.Finish f, _) => ⟨w, some (.RemoteFinished f.cause), [], [], []⟩
    | .ok _ => ⟨w, some .UnexpectedPacket, [], [], []⟩
  | .Waiting =>
    match NetMessage.decode bytes with
    | .error e => ⟨w, some e, [], [], []⟩
    | .ok (.State s, _) => ⟨w, none, w.set_state s.conv s.state, [], []⟩
    | .ok (.Start, _) =>
      let (w', out) := w.set_self_state .Running
      ⟨w', none, out, [], []⟩
    | .ok (.Finish f, _) => ⟨w, some (.RemoteFinished f.cause), [], [], []⟩
    | .ok _ => ⟨w, some .UnexpectedPacket, [], [], []⟩
  | .Running =>
    if NetWorker.is_message_command bytes then
      match CommandDecoder.decode bytes with
      | .error e => ⟨w, some e, [], [], []⟩
      | .ok cmds => ⟨w, none, [], cmds, []⟩
    else
      match NetMessage.decode bytes with
      | .error e => ⟨w, some e, [], [], []⟩
      | .ok (.State s, _) => ⟨w, none, w.set_state s.conv s.state, [], []⟩
      | .ok (.Finish f, _) => ⟨w, some (.RemoteFinished f.cause), [], [], []⟩
      | .ok _ => ⟨w, some .UnexpectedPacket, [], [], []⟩
  | .Stopped => ⟨w, none, [], [], []⟩

/-- One event handled by the worker loop: a dequeued game input
(`NetInputState::NonEmpty`, carrying the input's frame, commands and
hash), the game-over marker (`NetInputState::Finish`), or one received
transport payload. -/
inductive WEvent where
  | input (frame : U32) (commands : List Command) (hash : List Byte)
  | inputFinish
  | msg (bytes : List Byte)
deriving DecidableEq, Repr

/-- One step of the worker against one event. An `input` event first
extends the encoder staging buffers (as `recv_input` does via
`CommandEncoder::buffers`), then runs `handle_input_impl`; `inputFinish`
runs the `NetInputState::Finish` arm of `handle_input` (`worker.rs`
lines 145-148); `msg` runs `handle_output_impl`. -/
def workerStep (w : NetWorker) : WEvent → StepResult
  | .input frame commands hash =>
    let w0 := { w with encCommands := w.encCommands ++ commands
                       encHash := w.encHash ++ hash }
    let (w', e, sends) := w0.handle_input_impl frame
    ⟨w', e, [], [], sends⟩
  | .inputFinish =>
    let (w', out) := w.set_self_state .Stopped
    ⟨w', some .GameOver, out, [], []⟩
  | .msg bytes => w.handle_output_impl bytes

/-- Run the worker over a sequence of events (step results other than the
updated worker are discarded). -/
def runWorker (w : NetWorker) (evs : List WEvent) : NetWorker :=
  evs.foldl (fun w e => (workerStep w e).worker) w

/-- Position of a state in the lifecycle order
`Initing ≤ Waiting ≤ Running ≤ Stopped`. -/
def stateRank : NetPlayerState → Nat
  | .Initing => 0
  | .Waiting => 1
  | .Running => 2
  | .Stopped => 3

/-! ## Helper lemmas -/

theorem parseU32_u32LE (n : Nat) (rest : List Byte) :
    parseU32 (u32LE n ++ rest) = some (n % 4294967296, rest) := by
  simp [u32LE, parseU32, mkByte]
  omega

theorem parseU32_u32LE_fin (a : U32) (rest : List Byte) :
    parseU32 (u32LE a.val ++ rest) = some (a.val, rest) := by
  rw [parseU32_u32LE, Nat.mod_eq_of_lt a.isLt]

theorem parseU32_u32LE_fin_nil (a : U32) :
    parseU32 (u32LE a.val) = some (a.val, []) := by
  have := parseU32_u32LE_fin a []
  simpa using this

theorem parseU64_u64LE (n : Nat) (rest : List Byte) :
    parseU64 (u64LE n ++ rest) = some (n % 18446744073709551616, rest) := by
  simp [u64LE, parseU64, List.append_assoc, parseU32_u32LE]
  omega

theorem toU32_val (a : U32) : toU32 a.val = a := by
  apply Fin.ext
  simp [toU32, Nat.mod_eq_of_lt a.isLt]

theorem takeB_append (bs rest : List Byte) :
    takeB bs.length (bs ++ rest) = some (bs, rest) := by
  simp [takeB]

theorem byteToState_stateByte (s : NetPlayerState) :
    byteToState (stateByte s) = some s := by
  cases s <;> rfl

theorem byteToCause_causeByte (c : NetFinishCause) :
    byteToCause (causeByte c) = some c := by
  cases c <;> rfl

theorem tag_bounds (msg : NetMessage) : 1 ≤ msg.tag ∧ msg.tag ≤ 7 := by
  cases msg <;> simp [NetMessage.tag]

/-- The structured payload codec round-trips on any payload that fits a
frame (needed for the `Connect` string lengths). -/
theorem parsePayload_encodePayload (msg : NetMessage)
    (hlen : (encodePayload msg).length ≤ 1877) :
    parsePayload msg.tag (encodePayload msg) = some msg := by
  cases msg with
  | Connect c =>
    have hr : c.room_id.length < 4294967296 := by
      simp [encodePayload, lenPrefixed, u32LE] at hlen; omega
    have hp : c.player_id.length < 4294967296 := by
      simp [encodePayload, lenPrefixed, u32LE] at hlen; omega
    have hw : c.password.length < 4294967296 := by
      simp [encodePayload, lenPrefixed, u32LE] at hlen; omega
    simp only [NetMessage.tag, parsePayload, encodePayload, lenPrefixed,
      List.append_assoc, parseConnect]
    rw [parseU32_u32LE]
    simp only [Option.bind_eq_bind, Option.some_bind]
    rw [Nat.mod_eq_of_lt hr, takeB_append]
    simp only [Option.some_bind]
    rw [parseU32_u32LE]
    simp only [Option.some_bind]
    rw [Nat.mod_eq_of_lt hp, takeB_append]
    simp only [Option.some_bind]
    rw [parseU32_u32LE]
    simp only [Option.bind_eq_bind, Option.some_bind]
    rw [Nat.mod_eq_of_lt hw]
    have htk : takeB c.password.length c.password = some (c.password, []) := by
      simpa using takeB_append c.password []
    rw [htk]
    simp
  | Accept => rfl
  | State s =>
    simp [NetMessage.tag, parsePayload, parseState, encodePayload,
      parseU32_u32LE_fin, byteToState_stateByte, toU32_val]
  | Start => rfl
  | Finish f =>
    simp [NetMessage.tag, parsePayload, parseFinish, encodePayload,
      byteToCause_causeByte]
  | Command c =>
    simp [NetMessage.tag, parsePayload, parseCommandMsg, encodePayload,
      parseU32_u32LE_fin, parseU32_u32LE_fin_nil, toU32_val]
  | Hash h =>
    simp [NetMessage.tag, parsePayload, parseHash, encodePayload,
      parseU32_u32LE_fin, toU32_val]

/-- Decoding an encoded frame followed by arbitrary trailing bytes (the
whole buffer within `KCP_MAX_PACKET`) recovers the message and consumes
exactly the frame. -/
theorem decode_encode_trailing (msg : NetMessage) (out : List Byte) (n : Nat)
    (tr : List Byte) (henc : NetMessage.encode msg [] = .ok (out, n))
    (htotal : out.length + tr.length ≤ KCP_MAX_PACKET) :
    NetMessage.decode (out ++ tr) = .ok (msg, n) ∧ n = out.length := by
  unfold NetMessage.encode at henc
  by_cases hbig : KCP_MIN_PACKET + (encodePayload msg).length > KCP_MAX_PACKET
  · rw [if_pos hbig] at henc; cases henc
  · rw [if_neg hbig] at henc
    simp only [Except.ok.injEq, Prod.mk.injEq] at henc
    obtain ⟨hout, hn⟩ := henc
    subst hout hn
    simp only [KCP_MIN_PACKET, KCP_MAX_PACKET] at hbig htotal ⊢
    set payload := encodePayload msg with hpay
    set p := payload.length with hp
    have hple : p ≤ 1877 := by omega
    have hlen : (([] ++ mkByte msg.tag :: mkByte (p / 256) :: mkByte (p % 256) :: payload)
        ++ tr).length = 3 + p + tr.length := by simp [hp]; omega
    have hlen' : ([] ++ mkByte msg.tag :: mkByte (p / 256) :: mkByte (p % 256) :: payload).length
        = 3 + p := by simp [hp]; omega
    rw [hlen'] at htotal
    have htagv : frameTag (([] ++ mkByte msg.tag :: mkByte (p / 256) :: mkByte (p % 256) :: payload)
        ++ tr) = msg.tag := by
      have hb := tag_bounds msg
      simp [frameTag, mkByte, List.getD]
      omega
    have hinner : frameInnerLen (([] ++ mkByte msg.tag :: mkByte (p / 256) :: mkByte (p % 256) :: payload)
        ++ tr) = p := by
      simp [frameInnerLen, mkByte, List.getD]
      omega
    have hb := tag_bounds msg
    unfold NetMessage.decode
    simp only [KCP_MIN_PACKET, KCP_MAX_PACKET, hinner, htagv, hlen]
    rw [if_neg (by omega), if_neg (by omega), if_neg (by omega), if_pos hb]
    have hdrop : List.drop (1 + 2)
        (([] ++ mkByte msg.tag :: mkByte (p / 256) :: mkByte (p % 256) :: payload) ++ tr)
        = payload ++ tr := by
      simp
    rw [hdrop, hp]
    have htake : (payload ++ tr).take payload.length = payload := by simp
    rw [htake, parsePayload_encodePayload msg (by rw [← hpay, ← hp]; exact hple), hlen']
    exact ⟨by norm_num, by omega⟩

/-- No-trailing-bytes corollary used for the framing round-trip. -/
theorem decode_encode (msg : NetMessage) (out : List Byte) (n : Nat)
    (henc : NetMessage.encode msg [] = .ok (out, n)) :
    NetMessage.decode out = .ok (msg, out.length) ∧ n = out.length := by
  have hlen : out.length ≤ KCP_MAX_PACKET := by
    unfold NetMessage.encode at henc
    by_cases hbig : KCP_MIN_PACKET + (encodePayload msg).length > KCP_MAX_PACKET
    · rw [if_pos hbig] at henc; cases henc
    · rw [if_neg hbig] at henc
      simp only [Except.ok.injEq, Prod.mk.injEq] at henc
      obtain ⟨hout, hn⟩ := henc
      subst hout
      simp only [KCP_MIN_PACKET, KCP_MAX_PACKET] at hbig ⊢
      simp
      omega
  have h := decode_encode_trailing msg out n [] henc (by simpa using hlen)
  rw [List.append_nil] at h
  exact ⟨h.2 ▸ h.1, h.2⟩


theorem parseCommand_serCommand (c : Command) (rest : List Byte) :
    parseCommand (serCommand c ++ rest) = some (c, rest) := by
  cases c with
  | Aaa a b =>
    simp only [serCommand, parseCommand, List.append_assoc]
    rw [parseU32_u32LE]
    norm_num
    rw [parseU32_u32LE_fin]
    simp only [Option.some_bind]
    rw [parseU32_u32LE_fin]
    simp [toU32_val]
  | Bbb x y z =>
    simp only [serCommand, parseCommand, List.append_assoc]
    rw [parseU32_u32LE]
    norm_num
    rw [parseU32_u32LE_fin]
    simp only [Option.some_bind]
    rw [parseU32_u32LE_fin]
    simp only [Option.some_bind]
    rw [parseU32_u32LE_fin]
    simp [toU32_val]

theorem parseNCommands_serialized (cmds : List Command) (rest : List Byte) :
    parseNCommands cmds.length ((cmds.map serCommand).flatten ++ rest) =
      some (cmds, rest) := by
  induction cmds generalizing rest with
  | nil => simp [parseNCommands]
  | cons c cs ih =>
    simp only [List.map_cons, List.flatten_cons, List.length_cons, parseNCommands,
      List.append_assoc, parseCommand_serCommand, Option.bind_eq_bind, Option.some_bind, ih]

theorem deserialize_serialize (cmds : List Command)
    (hlen : cmds.length < 18446744073709551616) :
    deserializeCommands (serializeCommands cmds) = some cmds := by
  simp only [deserializeCommands, serializeCommands]
  rw [parseU64_u64LE]
  simp only [Option.bind_eq_bind, Option.some_bind]
  rw [Nat.mod_eq_of_lt hlen]
  have h := parseNCommands_serialized cmds []
  rw [List.append_nil] at h
  rw [h]
  simp

theorem serializeCommands_length (cmds : List Command) :
    8 + 12 * cmds.length ≤ (serializeCommands cmds).length := by
  induction cmds with
  | nil => decide
  | cons c cs ih =>
    simp only [serializeCommands, u64LE, u32LE, List.map_cons, List.flatten_cons] at ih ⊢
    have hc : 12 ≤ (serCommand c).length := by
      cases c <;> simp [serCommand, u32LE]
    simp at ih ⊢
    omega

theorem decode_too_short (bytes : List Byte) (h : bytes.length < 3) :
    NetMessage.decode bytes = .error .PacketTooShort := by
  unfold NetMessage.decode
  rw [if_pos (by simpa [KCP_MIN_PACKET] using h)]

theorem decode_too_long (bytes : List Byte) (h : bytes.length > KCP_MAX_PACKET) :
    NetMessage.decode bytes = .error .PacketTooLong := by
  unfold NetMessage.decode
  rw [if_neg (by simp [KCP_MIN_PACKET, KCP_MAX_PACKET] at h ⊢; omega),
    if_pos (by simpa [KCP_MAX_PACKET] using h)]

theorem decode_broken (bytes : List Byte) (h3 : 3 ≤ bytes.length)
    (h18 : bytes.length ≤ KCP_MAX_PACKET)
    (hd : 3 + frameInnerLen bytes > bytes.length ∨
      ¬(1 ≤ frameTag bytes ∧ frameTag bytes ≤ 7)) :
    NetMessage.decode bytes = .error .PacketBroken := by
  unfold NetMessage.decode
  rw [if_neg (by simp [KCP_MIN_PACKET]; omega),
    if_neg (by simp [KCP_MAX_PACKET] at h18 ⊢; omega)]
  rcases hd with hd | hd
  · rw [if_pos (by simp [KCP_MIN_PACKET]; omega)]
  · by_cases hoff : KCP_MIN_PACKET + frameInnerLen bytes > bytes.length
    · rw [if_pos hoff]
    · rw [if_neg hoff, if_neg hd]

theorem encode_too_long (msg : NetMessage) (buf : List Byte)
    (h : 3 + (encodePayload msg).length > KCP_MAX_PACKET) :
    NetMessage.encode msg buf = .error .MessageTooLong := by
  unfold NetMessage.encode
  rw [if_pos (by simp [KCP_MIN_PACKET, KCP_MAX_PACKET] at h ⊢; omega)]

/-- C1: For every `NetMessage` F whose encoding into an empty buffer
succeeds and has total length between 3 and `MAX_PACKET` (1880) bytes,
`NetMessage::decode` applied to that encoding returns exactly
(F, length-of-the-encoding). -/
theorem framing_round_trip (F : NetMessage) (out : List Byte) (n : Nat)
    (henc : NetMessage.encode F [] = .ok (out, n))
    (hmin : 3 ≤ out.length) (hmax : out.length ≤ KCP_MAX_PACKET) :
    NetMessage.decode out = .ok (F, out.length) :=
  (decode_encode F out n henc).1

theorem framing_round_trip_witness :
    NetMessage.encode .Start [] = .ok ([4, 0, 0], 3) ∧
    NetMessage.decode [4, 0, 0] = .ok (.Start, 3) :=
  ⟨by decide, framing_round_trip .Start [4, 0, 0] 3 (by decide) (by decide) (by decide)⟩

/-- C2: `NetMessage::decode` errors with `PacketTooShort` on fewer than 3
bytes, `PacketTooLong` on more than `MAX_PACKET` (1880) bytes, and
`PacketBroken` whenever (within those bounds) 3 plus the inner length
field exceeds the buffer length or the type tag byte is not one of the
seven known tags 1..7; `NetMessage::encode` errors with `MessageTooLong`
whenever the produced total frame would exceed `MAX_PACKET` bytes. -/
theorem codec_bounds (bytes : List Byte) (msg : NetMessage) (buf : List Byte) :
    (bytes.length < 3 → NetMessage.decode bytes = .error .PacketTooShort) ∧
    (bytes.length > KCP_MAX_PACKET → NetMessage.decode bytes = .error .PacketTooLong) ∧
    (3 ≤ bytes.length → bytes.length ≤ KCP_MAX_PACKET →
      (3 + frameInnerLen bytes > bytes.length ∨
        ¬(1 ≤ frameTag bytes ∧ frameTag bytes ≤ 7)) →
      NetMessage.decode bytes = .error .PacketBroken) ∧
    (3 + (encodePayload msg).length > KCP_MAX_PACKET →
      NetMessage.encode msg buf = .error .MessageTooLong) :=
  ⟨decode_too_short bytes, decode_too_long bytes,
   fun h3 h18 hd => decode_broken bytes h3 h18 hd, encode_too_long msg buf⟩

theorem codec_bounds_witness :
    NetMessage.decode [0] = .error .PacketTooShort ∧
    NetMessage.decode (List.replicate 1881 0) = .error .PacketTooLong ∧
    NetMessage.decode [9, 0, 0] = .error .PacketBroken ∧
    NetMessage.encode (.Hash ⟨0, List.replicate 1877 0⟩) [] = .error .MessageTooLong :=
  ⟨(codec_bounds [0] .Start []).1 (by decide),
   (codec_bounds (List.replicate 1881 0) .Start []).2.1
     (by rw [List.length_replicate]; decide),
   (codec_bounds [9, 0, 0] .Start []).2.2.1 (by decide) (by decide) (by decide),
   (codec_bounds [] (.Hash ⟨0, List.replicate 1877 0⟩) []).2.2.2
     (by simp only [encodePayload, u32LE, List.length_append, List.length_cons,
            List.length_nil, List.length_replicate, KCP_MAX_PACKET]
         decide)⟩



theorem length_ser_replicate (n : Nat) :
    (serializeCommands (List.replicate n (Command.Aaa 0 0))).length = 8 + 12 * n := by
  have hfl : ((List.replicate n (Command.Aaa 0 0)).map serCommand).flatten.length
      = 12 * n := by
    induction n with
    | zero => simp
    | succ k ih =>
      simp only [List.replicate_succ, List.map_cons, List.flatten_cons,
        List.length_append, ih]
      simp [serCommand, u32LE]
      omega
  simp only [serializeCommands, List.length_append, hfl, u64LE, u32LE,
    List.length_replicate]
  simp

/-- C3 (amended): for every conv, frame and command list whose full buffer
(outer `Command` frame plus fixint-bincode serialized list) fits within
`MAX_PACKET`, `CommandDecoder::decode` succeeds and yields the commands in
order, each wrapped with that conv and frame. -/
theorem command_decode_ordering (conv frame : U32) (cmds : List Command)
    (cb : List Byte) (m : Nat)
    (henc : NetMessage.encode (.Command ⟨conv, frame⟩) [] = .ok (cb, m))
    (hlen : (cb ++ serializeCommands cmds).length ≤ KCP_MAX_PACKET) :
    CommandDecoder.decode (cb ++ serializeCommands cmds) =
      .ok (cmds.map fun c => ⟨conv, frame, c⟩) := by
  rw [List.length_append] at hlen
  obtain ⟨hdec, hm⟩ :=
    decode_encode_trailing (.Command ⟨conv, frame⟩) cb m (serializeCommands cmds) henc hlen
  have hdrop : (cb ++ serializeCommands cmds).drop m = serializeCommands cmds := by
    rw [hm]; simp
  have hser := serializeCommands_length cmds
  have hcount : cmds.length < 18446744073709551616 := by
    simp [KCP_MAX_PACKET] at hlen
    omega
  have hstep : CommandDecoder.decode (cb ++ serializeCommands cmds)
      = match deserializeCommands ((cb ++ serializeCommands cmds).drop m) with
        | some cs => .ok (cs.map fun c => ⟨conv, frame, c⟩)
        | none => .error .Bincode := by
    unfold CommandDecoder.decode
    rw [hdec]
  rw [hstep, hdrop, deserialize_serialize cmds hcount]

theorem command_decode_ordering_witness :
    NetMessage.encode (.Command ⟨1, 2⟩) [] = .ok ([6, 0, 8, 1, 0, 0, 0, 2, 0, 0, 0], 11) ∧
    CommandDecoder.decode ([6, 0, 8, 1, 0, 0, 0, 2, 0, 0, 0] ++
        serializeCommands [Command.Aaa 3 4]) =
      .ok [⟨1, 2, Command.Aaa 3 4⟩] :=
  ⟨by decide,
   command_decode_ordering 1 2 [Command.Aaa 3 4] [6, 0, 8, 1, 0, 0, 0, 2, 0, 0, 0] 11
     (by decide) (by decide)⟩

/-- C3 counterexample: with 156 commands the full buffer is 1891 bytes,
and `CommandDecoder::decode` fails with `PacketTooLong` instead of
succeeding. -/
theorem command_decode_counterexample :
    NetMessage.encode (.Command ⟨0, 0⟩) [] = .ok ([6, 0, 8, 0, 0, 0, 0, 0, 0, 0, 0], 11) ∧
    CommandDecoder.decode ([6, 0, 8, 0, 0, 0, 0, 0, 0, 0, 0] ++
        serializeCommands (List.replicate 156 (Command.Aaa 0 0))) =
      .error .PacketTooLong := by
  refine ⟨by decide, ?_⟩
  have hlen : (([6, 0, 8, 0, 0, 0, 0, 0, 0, 0, 0] : List Byte) ++
      serializeCommands (List.replicate 156 (Command.Aaa 0 0))).length = 1891 := by
    rw [List.length_append, length_ser_replicate]
    decide
  have hdec := decode_too_long ([6, 0, 8, 0, 0, 0, 0, 0, 0, 0, 0] ++
      serializeCommands (List.replicate 156 (Command.Aaa 0 0)))
    (by rw [hlen]; decide)
  have hstep : CommandDecoder.decode ([6, 0, 8, 0, 0, 0, 0, 0, 0, 0, 0] ++
      serializeCommands (List.replicate 156 (Command.Aaa 0 0))) = .error .PacketTooLong := by
    unfold CommandDecoder.decode
    rw [hdec]
  exact hstep

theorem send_input_finished (c : NetChanImpl) (cause : NetFinishCause)
    (h : c.finish_cause = some cause) (f : U32) (cm : List Command) (hs : List Byte) :
    NetChan.send_input c f cm hs = (.error cause, c) := by
  unfold NetChan.send_input
  rw [h]

theorem recv_output_finished (c : NetChanImpl) (cause : NetFinishCause)
    (h : c.finish_cause = some cause) :
    NetChan.recv_output c = (.error cause, c) := by
  unfold NetChan.recv_output
  rw [h]

theorem game_over_finished (c : NetChanImpl) (cause : NetFinishCause)
    (h : c.finish_cause = some cause) :
    NetChan.game_over c = (.error cause, c) := by
  unfold NetChan.game_over
  rw [h]

theorem applyChanOp_keeps_finish (c : NetChanImpl) (op : ChanOp) (cause : NetFinishCause)
    (h : c.finish_cause = some cause) (hnf : ∀ c', op ≠ .finishOp c') :
    (applyChanOp c op).finish_cause = some cause := by
  cases op with
  | sendInput f cm hs =>
    rw [applyChanOp, send_input_finished c cause h]
    exact h
  | recvInput =>
    rw [applyChanOp]
    unfold NetChan.recv_input
    rcases c.input_queue with _ | ⟨_ | i, rest⟩ <;> simpa using h
  | sendOutputCommands cmds => simpa [applyChanOp, NetChan.send_output_commands] using h
  | sendOutputStates conv st => simpa [applyChanOp, NetChan.send_output_states] using h
  | recvOutput =>
    rw [applyChanOp, recv_output_finished c cause h]
    exact h
  | gameOver =>
    rw [applyChanOp, game_over_finished c cause h]
    exact h
  | finishOp c' => exact absurd rfl (hnf c')

theorem applyChanOp_some_finish (c : NetChanImpl) (op : ChanOp) (cause : NetFinishCause)
    (h : c.finish_cause = some cause) :
    ∃ cause', (applyChanOp c op).finish_cause = some cause' := by
  by_cases hf : ∃ c', op = .finishOp c'
  · obtain ⟨c', rfl⟩ := hf
    exact ⟨c', rfl⟩
  · push_neg at hf
    exact ⟨cause, applyChanOp_keeps_finish c op cause h fun c' heq => hf c' heq⟩

theorem runChanOps_some_finish (ops : List ChanOp) (c : NetChanImpl)
    (cause : NetFinishCause) (h : c.finish_cause = some cause) :
    ∃ cause', (runChanOps c ops).finish_cause = some cause' := by
  induction ops generalizing c cause with
  | nil => exact ⟨cause, h⟩
  | cons op rest ih =>
    obtain ⟨cause', h'⟩ := applyChanOp_some_finish c op cause h
    exact ih (applyChanOp c op) cause' h'

theorem runChanOps_keeps_finish (ops : List ChanOp) (c : NetChanImpl)
    (cause : NetFinishCause) (h : c.finish_cause = some cause)
    (hnf : ∀ c', ChanOp.finishOp c' ∉ ops) :
    (runChanOps c ops).finish_cause = some cause := by
  induction ops generalizing c with
  | nil => exact h
  | cons op rest ih =>
    have h1 : (applyChanOp c op).finish_cause = some cause :=
      applyChanOp_keeps_finish c op cause h
        (fun c' heq => (hnf c') (by rw [heq]; exact List.mem_cons_self _ _))
    exact ih (applyChanOp c op) h1 fun c' hmem => (hnf c') (List.mem_cons_of_mem _ hmem)

/-- C5: after `NetChan::finish(cause)` the finish slot stays set through
any further operation sequence (exactly `cause` if no further `finish`
overwrites it), and on such a poisoned channel every `send_input`,
`recv_output` and `game_over` call returns `Err` with the stored cause
and leaves the channel (in particular the input queue and the output
accumulator) unmodified. -/
theorem channel_poisoning (c : NetChanImpl) (cause : NetFinishCause) (ops : List ChanOp) :
    (∃ cause', (runChanOps (NetChan.finish c cause) ops).finish_cause = some cause') ∧
    (∀ d cause', d.finish_cause = some cause' →
      (∀ f cm hs, NetChan.send_input d f cm hs = (.error cause', d)) ∧
      NetChan.recv_output d = (.error cause', d) ∧
      NetChan.game_over d = (.error cause', d)) ∧
    ((∀ c', ChanOp.finishOp c' ∉ ops) →
      (runChanOps (NetChan.finish c cause) ops).finish_cause = some cause) := by
  refine ⟨?_, ?_, ?_⟩
  · exact runChanOps_some_finish ops _ cause rfl
  · intro d cause' hd
    exact ⟨fun f cm hs => send_input_finished d cause' hd f cm hs,
      recv_output_finished d cause' hd, game_over_finished d cause' hd⟩
  · intro hnf
    exact runChanOps_keeps_finish ops _ cause rfl hnf

theorem channel_poisoning_witness :
    (runChanOps (NetChan.finish NetChan.new .GameOver) [.recvInput]).finish_cause
      = some .GameOver ∧
    NetChan.send_input (NetChan.finish NetChan.new .GameOver) 1 [] []
      = (.error .GameOver, NetChan.finish NetChan.new .GameOver) ∧
    NetChan.recv_output (NetChan.finish NetChan.new .GameOver)
      = (.error .GameOver, NetChan.finish NetChan.new .GameOver) ∧
    NetChan.game_over (NetChan.finish NetChan.new .GameOver)
      = (.error .GameOver, NetChan.finish NetChan.new .GameOver) := by
  have h := channel_poisoning NetChan.new .GameOver [.recvInput]
  have h2 := h.2.1 (NetChan.finish NetChan.new .GameOver) .GameOver rfl
  exact ⟨h.2.2 (by intro c' hmem; simp at hmem), h2.1 1 [] [], h2.2.1, h2.2.2⟩



theorem applyChanOp_cache_bound (c : NetChanImpl) (op : ChanOp)
    (h : c.cache_stack.length ≤ 3) : (applyChanOp c op).cache_stack.length ≤ 3 := by
  cases op with
  | sendInput f cm hs =>
    rw [applyChanOp]
    unfold NetChan.send_input
    rcases hf : c.finish_cause with _ | cause
    · rcases hcs : c.cache_stack with _ | ⟨i, rest⟩
      · simpa using h
      · simp only []
        rw [hcs] at h
        simp at h ⊢
        omega
    · simpa using h
  | recvInput =>
    rw [applyChanOp]
    unfold NetChan.recv_input
    rcases hq : c.input_queue with _ | ⟨iw, rest⟩
    · simpa using h
    · cases iw with
      | finish => simpa using h
      | input i =>
        by_cases hlt : c.cache_stack.length < 3
        · simp [hlt]
          omega
        · simpa [hlt] using h
  | sendOutputCommands cmds => simpa [applyChanOp, NetChan.send_output_commands] using h
  | sendOutputStates conv st => simpa [applyChanOp, NetChan.send_output_states] using h
  | recvOutput =>
    rw [applyChanOp]
    unfold NetChan.recv_output
    rcases hf : c.finish_cause with _ | cause <;> simpa using h
  | gameOver =>
    rw [applyChanOp]
    unfold NetChan.game_over
    rcases hf : c.finish_cause with _ | cause <;> simpa using h
  | finishOp cause => simpa [applyChanOp, NetChan.finish] using h

theorem runChanOps_cache_bound (ops : List ChanOp) (c : NetChanImpl)
    (h : c.cache_stack.length ≤ 3) : (runChanOps c ops).cache_stack.length ≤ 3 := by
  induction ops generalizing c with
  | nil => exact h
  | cons op rest ih => exact ih (applyChanOp c op) (applyChanOp_cache_bound c op h)

/-- C9: from a fresh `NetChan`, under every operation sequence the cache
stack of reusable `NetInput` buffers never exceeds 3 entries; and when
`recv_input` pops an input while the cache is already at capacity, the
buffer is dropped (the cache is left unchanged) instead of pushed. -/
theorem cache_stack_bound (ops : List ChanOp) (c : NetChanImpl) (i : NetInput)
    (rest : List NetInputWrap) :
    ((runChanOps NetChan.new ops).cache_stack.length ≤ 3) ∧
    (c.cache_stack.length = 3 → c.input_queue = .input i :: rest →
      ((NetChan.recv_input c).2.2).cache_stack = c.cache_stack) := by
  constructor
  · exact runChanOps_cache_bound ops NetChan.new (by simp [NetChan.new])
  · intro hcap hq
    unfold NetChan.recv_input
    rw [hq]
    simp [hcap]

theorem cache_stack_bound_witness :
    ((runChanOps NetChan.new
        [.sendInput 1 [] [], .sendInput 2 [] [], .sendInput 3 [] [], .sendInput 4 [] [],
         .recvInput, .recvInput, .recvInput, .recvInput]).cache_stack.length ≤ 3) ∧
    (NetChan.recv_input
        ⟨[NetInput.new, NetInput.new, NetInput.new], [.input ⟨7, [], []⟩], ⟨[], []⟩, none⟩).2.2.cache_stack
      = [NetInput.new, NetInput.new, NetInput.new] := by
  have h := cache_stack_bound
    [.sendInput 1 [] [], .sendInput 2 [] [], .sendInput 3 [] [], .sendInput 4 [] [],
     .recvInput, .recvInput, .recvInput, .recvInput]
    ⟨[NetInput.new, NetInput.new, NetInput.new], [.input ⟨7, [], []⟩], ⟨[], []⟩, none⟩
    ⟨7, [], []⟩ []
  exact ⟨h.1, h.2 (by decide) (by decide)⟩



theorem applyChanOp_cache_clear (c : NetChanImpl) (op : ChanOp)
    (h : ∀ i ∈ c.cache_stack, i = NetInput.new) :
    ∀ i ∈ (applyChanOp c op).cache_stack, i = NetInput.new := by
  cases op with
  | sendInput f cm hs =>
    rw [applyChanOp]
    unfold NetChan.send_input
    rcases hf : c.finish_cause with _ | cause
    · rcases hcs : c.cache_stack with _ | ⟨j, rest⟩
      · simp
      · intro i hi
        exact h i (by rw [hcs]; exact List.mem_cons_of_mem _ (by simpa using hi))
    · simpa using h
  | recvInput =>
    rw [applyChanOp]
    unfold NetChan.recv_input
    rcases hq : c.input_queue with _ | ⟨iw, rest⟩
    · simpa using h
    · cases iw with
      | finish => simpa using h
      | input j =>
        by_cases hlt : c.cache_stack.length < 3
        · simp only [hlt, if_true]
          intro i hi
          rcases List.mem_cons.mp (by simpa using hi) with hi | hi
          · exact hi
          · exact h i hi
        · simpa [hlt] using h
  | sendOutputCommands cmds => simpa [applyChanOp, NetChan.send_output_commands] using h
  | sendOutputStates conv st => simpa [applyChanOp, NetChan.send_output_states] using h
  | recvOutput =>
    rw [applyChanOp]
    unfold NetChan.recv_output
    rcases hf : c.finish_cause with _ | cause <;> simpa using h
  | gameOver =>
    rw [applyChanOp]
    unfold NetChan.game_over
    rcases hf : c.finish_cause with _ | cause <;> simpa using h
  | finishOp cause => simpa [applyChanOp, NetChan.finish] using h

theorem runChanOps_cache_clear (ops : List ChanOp) (c : NetChanImpl)
    (h : ∀ i ∈ c.cache_stack, i = NetInput.new) :
    ∀ i ∈ (runChanOps c ops).cache_stack, i = NetInput.new := by
  induction ops generalizing c with
  | nil => exact h
  | cons op rest ih => exact ih (applyChanOp c op) (applyChanOp_cache_clear c op h)

/-- C10: from a fresh `NetChan`, every buffer held in the cache stack is
cleared (frame 0, empty commands, empty hash) because `recv_input` clears
a buffer before returning it to the cache; consequently on a channel with
an all-clear cache, `send_input(frame, commands, hash)` enqueues a
`NetInput` holding exactly the passed frame, commands and hash, with no
stale data. -/
theorem cache_inputs_cleared (ops : List ChanOp) (c : NetChanImpl) (f : U32)
    (cm : List Command) (hs : List Byte) :
    (∀ i ∈ (runChanOps NetChan.new ops).cache_stack, i = NetInput.new) ∧
    (c.finish_cause = none → (∀ i ∈ c.cache_stack, i = NetInput.new) →
      NetChan.send_input c f cm hs =
        (.ok (), { c with cache_stack := c.cache_stack.tail,
                          input_queue := c.input_queue ++ [.input ⟨f, cm, hs⟩] })) := by
  constructor
  · exact runChanOps_cache_clear ops NetChan.new (by simp [NetChan.new])
  · intro hf hclear
    unfold NetChan.send_input
    rw [hf]
    rcases hcs : c.cache_stack with _ | ⟨j, rest⟩
    · simp [NetInput.new]
    · have hj : j = NetInput.new := hclear j (by rw [hcs]; exact List.mem_cons_self _ _)
      subst hj
      simp [NetInput.new]

theorem cache_inputs_cleared_witness :
    (∀ i ∈ (runChanOps NetChan.new [.sendInput 5 [] [9], .recvInput]).cache_stack,
      i = NetInput.new) ∧
    NetChan.send_input ⟨[NetInput.new], [], ⟨[], []⟩, none⟩ 4 [Command.Aaa 1 2] [8] =
      (.ok (), ⟨[], [.input ⟨4, [Command.Aaa 1 2], [8]⟩], ⟨[], []⟩, none⟩) := by
  have h := cache_inputs_cleared [.sendInput 5 [] [9], .recvInput]
    ⟨[NetInput.new], [], ⟨[], []⟩, none⟩ 4 [Command.Aaa 1 2] [8]
  refine ⟨h.1, ?_⟩
  have h2 := h.2 rfl (by decide)
  rw [h2]
  rfl

/-- A Running worker whose encoder fails propagates the error after the
frame advance, sending nothing. -/
theorem running_encode_error (w : NetWorker) (frame : U32) (e : KCPError)
    (hrun : w.state = .Running) (hlt : w.frame < frame)
    (herr : NetMessage.encode (.Hash ⟨frame, w.encHash⟩) [] = .error e) :
    w.handle_input_impl frame = ({ w with frame := frame }, some e, []) := by
  unfold NetWorker.handle_input_impl
  rw [hrun]
  rw [if_neg (not_le.mpr hlt)]
  unfold CommandEncoder.encode
  dsimp only
  rw [herr]
  rfl

/-- C4 (amended): while the worker state is Running, an input frame
`≤ self.frame` fails with `InvalidFrame` and sends nothing; an input
frame `> self.frame` advances the worker's frame and — provided the
encoder succeeds, i.e. the hash frame fits `MAX_PACKET` — performs
exactly two transport sends, the encoded Hash frame first, then the
encoded Command frame with the trailing serialized command list. (When
the hash frame overflows `MAX_PACKET` the encode error propagates after
the frame advance and nothing is sent — see the counterexample.) -/
theorem running_frame_sends (w : NetWorker) (frame : U32) (hrun : w.state = .Running) :
    (frame ≤ w.frame →
      w.handle_input_impl frame = (w, some .InvalidFrame, [])) ∧
    (w.frame < frame → ∀ hb n cb m,
      NetMessage.encode (.Hash ⟨frame, w.encHash⟩) [] = .ok (hb, n) →
      NetMessage.encode (.Command ⟨0, frame⟩) [] = .ok (cb, m) →
      w.handle_input_impl frame =
        ({ w with frame := frame, encCommands := [], encHash := [] }, none,
          [hb, cb ++ serializeCommands w.encCommands])) := by
  constructor
  · intro hle
    unfold NetWorker.handle_input_impl
    rw [hrun]
    simp only [if_pos hle]
  · intro hlt hb n cb m hhash hcmd
    unfold NetWorker.handle_input_impl
    rw [hrun]
    rw [if_neg (not_le.mpr hlt)]
    unfold CommandEncoder.encode
    dsimp only
    rw [hhash, hcmd]
    rfl

theorem running_frame_sends_witness :
    NetWorker.handle_input_impl ⟨7, .Running, 3, [Command.Aaa 1 2], [9]⟩ 3
      = (⟨7, .Running, 3, [Command.Aaa 1 2], [9]⟩, some .InvalidFrame, []) ∧
    NetWorker.handle_input_impl ⟨7, .Running, 3, [Command.Aaa 1 2], [9]⟩ 5
      = (⟨7, .Running, 5, [], []⟩, none,
         [[7, 0, 5, 5, 0, 0, 0, 9],
          [6, 0, 8, 0, 0, 0, 0, 5, 0, 0, 0] ++ serializeCommands [Command.Aaa 1 2]]) := by
  constructor
  · exact (running_frame_sends ⟨7, .Running, 3, [Command.Aaa 1 2], [9]⟩ 3 rfl).1 (by decide)
  · exact (running_frame_sends ⟨7, .Running, 3, [Command.Aaa 1 2], [9]⟩ 5 rfl).2
      (by decide) _ 8 _ 11 (by decide) (by decide)

/-- C4 counterexample: a Running worker whose staged hash is 1877 bytes
advances its frame but fails with `MessageTooLong` and performs zero
sends, so the "exactly two sends when frame > self.frame" clause of the
original claim does not hold unconditionally. -/
theorem running_frame_sends_counterexample :
    NetWorker.handle_input_impl ⟨0, .Running, 0, [], List.replicate 1877 0⟩ 1
      = (⟨0, .Running, 1, [], List.replicate 1877 0⟩, some .MessageTooLong, []) := by
  have herr : NetMessage.encode (.Hash ⟨1, List.replicate 1877 0⟩) [] =
      .error .MessageTooLong := by
    apply encode_too_long
    simp only [encodePayload, u32LE, List.length_append, List.length_cons,
      List.length_nil, List.length_replicate, KCP_MAX_PACKET]
    decide
  exact running_encode_error ⟨0, .Running, 0, [], List.replicate 1877 0⟩ 1
    .MessageTooLong rfl (by decide) herr

theorem handle_input_impl_pre (w : NetWorker) (f : U32)
    (hstate : w.state = .Initing ∨ w.state = .Waiting) :
    w.handle_input_impl f =
      if ¬w.encCommands.isEmpty ∨ ¬w.encHash.isEmpty then (w, some .Unexpected, [])
      else (w, none, []) := by
  rcases hstate with h | h <;> (unfold NetWorker.handle_input_impl; rw [h])

/-- C7: while the worker state is Initing or Waiting, processing a
dequeued input (whose command list and hash are the encoder's staging
buffers, filled by `recv_input`) fails with `Unexpected` — mapped to
`FinishCause::ClientError` — iff the input's command list or hash is
non-empty; an input with both empty is accepted without effect. -/
theorem pre_running_input (w : NetWorker) (f : U32)
    (hstate : w.state = .Initing ∨ w.state = .Waiting) :
    (w.handle_input_impl f = (w, some .Unexpected, []) ↔
      (w.encCommands ≠ [] ∨ w.encHash ≠ [])) ∧
    (w.encCommands = [] → w.encHash = [] → w.handle_input_impl f = (w, none, [])) ∧
    KCPError.cause .Unexpected = .ClientError := by
  have himpl := handle_input_impl_pre w f hstate
  refine ⟨?_, ?_, rfl⟩
  · rw [himpl]
    by_cases hcond : ¬w.encCommands.isEmpty ∨ ¬w.encHash.isEmpty
    · rw [if_pos hcond]
      simp only [List.isEmpty_iff] at hcond
      simpa using hcond
    · rw [if_neg hcond]
      simp only [List.isEmpty_iff] at hcond
      push_neg at hcond
      simp [hcond.1, hcond.2]
  · intro hc hh
    rw [himpl, if_neg (by simp [hc, hh])]

theorem pre_running_input_witness :
    (NetWorker.handle_input_impl ⟨0, .Initing, 0, [], [1, 2, 3]⟩ 1
      = (⟨0, .Initing, 0, [], [1, 2, 3]⟩, some .Unexpected, [])) ∧
    (NetWorker.handle_input_impl ⟨0, .Waiting, 0, [], []⟩ 1
      = (⟨0, .Waiting, 0, [], []⟩, none, [])) ∧
    KCPError.cause .Unexpected = .ClientError := by
  refine ⟨?_, ?_, rfl⟩
  · exact (pre_running_input ⟨0, .Initing, 0, [], [1, 2, 3]⟩ 1 (Or.inl rfl)).1.mpr
      (by decide)
  · exact (pre_running_input ⟨0, .Waiting, 0, [], []⟩ 1 (Or.inr rfl)).2.1 rfl rfl



theorem encode_frameTag (msg : NetMessage) (out : List Byte) (n : Nat)
    (henc : NetMessage.encode msg [] = .ok (out, n)) :
    frameTag out = msg.tag ∧ 3 ≤ out.length := by
  unfold NetMessage.encode at henc
  by_cases hbig : KCP_MIN_PACKET + (encodePayload msg).length > KCP_MAX_PACKET
  · rw [if_pos hbig] at henc; cases henc
  · rw [if_neg hbig] at henc
    simp only [Except.ok.injEq, Prod.mk.injEq] at henc
    obtain ⟨hout, hn⟩ := henc
    subst hout
    have hb := tag_bounds msg
    constructor
    · simp [frameTag, mkByte, List.getD]
      omega
    · simp

theorem is_message_command_ne (bytes : List Byte) (htag : frameTag bytes ≠ 6) :
    NetWorker.is_message_command bytes = false := by
  unfold NetWorker.is_message_command
  by_cases hlen : bytes.length < KCP_MIN_PACKET
  · rw [if_pos hlen]
  · rw [if_neg hlen]
    simpa [frameTag] using htag

/-- C8 (amended): while Waiting or Running, a received `State{conv, state}`
frame is forwarded to the NetChan as a peer-state update exactly when its
conv differs from the worker's own conv (a `State` carrying the worker's
own conv is dropped by `set_state`); in either case the worker itself —
in particular its local state — is unchanged, with no error, no command
output, and no sends. -/
theorem peer_state_update (w : NetWorker) (s : NetState) (bytes : List Byte) (n : Nat)
    (hstate : w.state = .Waiting ∨ w.state = .Running)
    (henc : NetMessage.encode (.State s) [] = .ok (bytes, n)) :
    w.handle_output_impl bytes =
      ⟨w, none, if s.conv ≠ w.conv then [(s.conv, s.state)] else [], [], []⟩ := by
  have hdec := (decode_encode (.State s) bytes n henc).1
  rcases hstate with h | h
  · unfold NetWorker.handle_output_impl
    rw [h, hdec]
    rfl
  · have htag : frameTag bytes = 3 := (encode_frameTag (.State s) bytes n henc).1
    have hcmd : NetWorker.is_message_command bytes = false :=
      is_message_command_ne bytes (by rw [htag]; decide)
    unfold NetWorker.handle_output_impl
    rw [h, hcmd, hdec]
    rfl

theorem peer_state_update_witness :
    NetWorker.handle_output_impl ⟨7, .Waiting, 0, [], []⟩ [3, 0, 5, 5, 0, 0, 0, 2]
      = ⟨⟨7, .Waiting, 0, [], []⟩, none, [(5, .Running)], [], []⟩ := by
  have h := peer_state_update ⟨7, .Waiting, 0, [], []⟩ ⟨5, .Running⟩
    [3, 0, 5, 5, 0, 0, 0, 2] 8 (Or.inl rfl) (by decide)
  rw [h]
  decide

/-- C8 counterexample: a `State` frame carrying the worker's own conv (5)
is received while Waiting but is not recorded into the output states
(`set_state` drops it), contradicting the claim that every received
`State{conv, state}` is recorded. -/
theorem peer_state_update_counterexample :
    NetMessage.encode (.State ⟨5, .Running⟩) [] = .ok ([3, 0, 5, 5, 0, 0, 0, 2], 8) ∧
    NetWorker.handle_output_impl ⟨5, .Waiting, 0, [], []⟩ [3, 0, 5, 5, 0, 0, 0, 2]
      = ⟨⟨5, .Waiting, 0, [], []⟩, none, [], [], []⟩ := by
  constructor
  · decide
  · decide



theorem stateRank_le_three (s : NetPlayerState) : stateRank s ≤ 3 := by
  cases s <;> simp [stateRank]

theorem handle_input_impl_state_conv (w : NetWorker) (f : U32) :
    ((w.handle_input_impl f).1).state = w.state ∧
    ((w.handle_input_impl f).1).conv = w.conv := by
  unfold NetWorker.handle_input_impl
  cases hst : w.state
  · constructor <;> (dsimp only; split <;> simp [hst])
  · constructor <;> (dsimp only; split <;> simp [hst])
  · constructor <;>
      (dsimp only
       split
       · simp [hst]
       · split <;> simp [hst])
  · constructor <;> simp [hst]

theorem workerStep_mono (w : NetWorker) (e : WEvent) :
    stateRank w.state ≤ stateRank ((workerStep w e).worker).state := by
  cases e with
  | input f cs hs =>
    have h := (handle_input_impl_state_conv
      { w with encCommands := w.encCommands ++ cs, encHash := w.encHash ++ hs } f).1
    have heq : ((workerStep w (.input f cs hs)).worker).state = w.state := h
    rw [heq]
  | inputFinish =>
    have h := stateRank_le_three w.state
    simpa [workerStep, NetWorker.set_self_state, stateRank] using h
  | msg bytes =>
    obtain ⟨cv, st, fr, ec, eh⟩ := w
    cases st
    case Initing => exact Nat.zero_le _
    case Waiting =>
      show stateRank .Waiting ≤ stateRank
        ((NetWorker.handle_output_impl ⟨cv, .Waiting, fr, ec, eh⟩ bytes).worker).state
      unfold NetWorker.handle_output_impl
      dsimp only
      rcases hdec : NetMessage.decode bytes with e' | ⟨msg, n⟩
      · exact le_refl _
      · cases msg <;> simp [stateRank, NetWorker.set_self_state, NetWorker.set_state]
    case Running =>
      show stateRank .Running ≤ stateRank
        ((NetWorker.handle_output_impl ⟨cv, .Running, fr, ec, eh⟩ bytes).worker).state
      unfold NetWorker.handle_output_impl
      dsimp only
      by_cases hc : NetWorker.is_message_command bytes = true
      · rw [if_pos hc]
        rcases hd2 : CommandDecoder.decode bytes with e' | cmds <;> exact le_refl _
      · rw [if_neg hc]
        rcases hdec : NetMessage.decode bytes with e' | ⟨msg, n⟩
        · exact le_refl _
        · cases msg <;> simp [stateRank, NetWorker.set_state]
    case Stopped =>
      exact le_refl _

theorem workerStep_transition_out (w : NetWorker) (e : WEvent)
    (h : ((workerStep w e).worker).state ≠ w.state) :
    (workerStep w e).stateOut = [(w.conv, ((workerStep w e).worker).state)] := by
  cases e with
  | input f cs hs =>
    exact absurd ((handle_input_impl_state_conv
      { w with encCommands := w.encCommands ++ cs, encHash := w.encHash ++ hs } f).1) h
  | inputFinish => rfl
  | msg bytes =>
    revert h
    obtain ⟨cv, st, fr, ec, eh⟩ := w
    cases st
    case Initing =>
      show ((NetWorker.handle_output_impl ⟨cv, .Initing, fr, ec, eh⟩ bytes).worker).state
          ≠ .Initing →
        (NetWorker.handle_output_impl ⟨cv, .Initing, fr, ec, eh⟩ bytes).stateOut =
          [(cv, ((NetWorker.handle_output_impl ⟨cv, .Initing, fr, ec, eh⟩ bytes).worker).state)]
      unfold NetWorker.handle_output_impl
      dsimp only
      rcases hdec : NetMessage.decode bytes with e' | ⟨msg, n⟩
      · intro hne; exact absurd rfl hne
      · cases msg <;> intro hne <;> first | rfl | exact absurd rfl hne
    case Waiting =>
      show ((NetWorker.handle_output_impl ⟨cv, .Waiting, fr, ec, eh⟩ bytes).worker).state
          ≠ .Waiting →
        (NetWorker.handle_output_impl ⟨cv, .Waiting, fr, ec, eh⟩ bytes).stateOut =
          [(cv, ((NetWorker.handle_output_impl ⟨cv, .Waiting, fr, ec, eh⟩ bytes).worker).state)]
      unfold NetWorker.handle_output_impl
      dsimp only
      rcases hdec : NetMessage.decode bytes with e' | ⟨msg, n⟩
      · intro hne; exact absurd rfl hne
      · cases msg <;> intro hne <;> first | rfl | exact absurd rfl hne
    case Running =>
      show ((NetWorker.handle_output_impl ⟨cv, .Running, fr, ec, eh⟩ bytes).worker).state
          ≠ .Running →
        (NetWorker.handle_output_impl ⟨cv, .Running, fr, ec, eh⟩ bytes).stateOut =
          [(cv, ((NetWorker.handle_output_impl ⟨cv, .Running, fr, ec, eh⟩ bytes).worker).state)]
      unfold NetWorker.handle_output_impl
      dsimp only
      by_cases hc : NetWorker.is_message_command bytes = true
      · rw [if_pos hc]
        rcases hd2 : CommandDecoder.decode bytes with e' | cmds <;>
          (intro hne; exact absurd rfl hne)
      · rw [if_neg hc]
        rcases hdec : NetMessage.decode bytes with e' | ⟨msg, n⟩
        · intro hne; exact absurd rfl hne
        · cases msg <;> intro hne <;> exact absurd rfl hne
    case Stopped =>
      intro hne; exact absurd rfl hne

theorem runWorker_mono (evs : List WEvent) (w : NetWorker) :
    stateRank w.state ≤ stateRank ((runWorker w evs)).state := by
  induction evs generalizing w with
  | nil => exact le_refl _
  | cons e rest ih =>
    calc stateRank w.state
        ≤ stateRank ((workerStep w e).worker).state := workerStep_mono w e
      _ ≤ stateRank (runWorker (workerStep w e).worker rest).state :=
          ih (workerStep w e).worker
      _ = stateRank (runWorker w (e :: rest)).state := by rfl



/-- C6: the worker's local `PlayerState` never regresses along
`Initing ≤ Waiting ≤ Running ≤ Stopped` — per step and under any
sequence of handled inputs and received messages — and whenever a step
changes the local state, the step's `send_output_states` emissions are
exactly one entry `(self.conv, new state)`. -/
theorem state_monotonicity (w : NetWorker) (e : WEvent) (evs : List WEvent) :
    stateRank w.state ≤ stateRank ((workerStep w e).worker).state ∧
    (((workerStep w e).worker).state ≠ w.state →
      (workerStep w e).stateOut = [(w.conv, ((workerStep w e).worker).state)]) ∧
    stateRank w.state ≤ stateRank (runWorker w evs).state :=
  ⟨workerStep_mono w e, fun h => workerStep_transition_out w e h, runWorker_mono evs w⟩

theorem state_monotonicity_witness :
    stateRank ((⟨1, .Initing, 0, [], []⟩ : NetWorker)).state ≤
      stateRank ((workerStep ⟨1, .Initing, 0, [], []⟩ (.msg [2, 0, 0])).worker).state ∧
    (workerStep ⟨1, .Initing, 0, [], []⟩ (.msg [2, 0, 0])).stateOut = [(1, .Waiting)] ∧
    stateRank ((⟨1, .Initing, 0, [], []⟩ : NetWorker)).state ≤
      stateRank (runWorker ⟨1, .Initing, 0, [], []⟩ [.msg [2, 0, 0], .msg [4, 0, 0]]).state := by
  have h := state_monotonicity ⟨1, .Initing, 0, [], []⟩ (.msg [2, 0, 0])
    [.msg [2, 0, 0], .msg [4, 0, 0]]
  exact ⟨h.1, h.2.1 (by decide), h.2.2⟩

end PointSet
